import Mathlib

/-!
Verification of the TetGen 1.3 mesh engine header (src/tetgen/tetgen.h).

The repository ships only the header: every inline member defined in the
header is embedded directly from its body; every member whose body lives in
the absent tetgen.cxx is modelled from the specification and from the
header's own interface documentation, and is marked `Modelled from the
spec:` in its doc comment.

Conventions: C++ `REAL` (double) is modelled as `ℚ`, C++ `int` as `Int`,
pointers as `Option Nat` (an address or null), machine sizes are ignored
(no arithmetic here approaches overflow).
-/

namespace Tetgen

/-- Pointer model: a C++ pointer is an address or null (`none`). -/
abbrev Ptr : Type := Option Nat

/-! ## Mesh handles: `triface` and `face` (tetgen.h:796-834).
The operator bodies are inline in the header, so these are embedded from
the source, not modelled. -/

/-- The `triface` handle (tetgen.h:796-816): a tetrahedron pointer `tet`,
a face index `loc` (0..3) and an edge version `ver` (0..5). -/
structure triface where
  tet : Ptr
  loc : Int
  ver : Int
deriving DecidableEq

/-- The `face` handle (tetgen.h:818-834): a shellface pointer `sh` and an
edge version `shver`. -/
structure face where
  sh : Ptr
  shver : Int
deriving DecidableEq

/-- Default constructor `triface() : tet(0), loc(0), ver(0)` (tetgen.h:804). -/
def triface.mkDefault : triface := { tet := none, loc := 0, ver := 0 }

/-- Default constructor `face() : sh(0), shver(0)` (tetgen.h:826). -/
def face.mkDefault : face := { sh := none, shver := 0 }

/-- Assignment `operator=` (tetgen.h:806-809): copies `tet`, `loc`, `ver`. -/
def triface.assign (_this t : triface) : triface :=
  { tet := t.tet, loc := t.loc, ver := t.ver }

/-- Assignment `operator=` (tetgen.h:828-831): copies `sh`, `shver`. -/
def face.assign (_this s : face) : face := { sh := s.sh, shver := s.shver }

/-- Equality `operator==` (tetgen.h:810-812). -/
def triface.eqOp (t1 t2 : triface) : Bool :=
  t1.tet == t2.tet && t1.loc == t2.loc && t1.ver == t2.ver

/-- Inequality `operator!=` (tetgen.h:813-815). -/
def triface.neOp (t1 t2 : triface) : Bool :=
  t1.tet != t2.tet || t1.loc != t2.loc || t1.ver != t2.ver

/-- Equality `operator==` (tetgen.h:832). -/
def face.eqOp (s1 s2 : face) : Bool := s1.sh == s2.sh && s1.shver == s2.shver

/-- Inequality `operator!=` (tetgen.h:833). -/
def face.neOp (s1 s2 : face) : Bool := s1.sh != s2.sh || s1.shver != s2.shver

/-- Claim C10: handles are pure values with component-wise equality: `==` holds
exactly when all components (tet, loc, ver, resp. sh, shver) are equal, `!=` is
the exact negation of `==`, assignment copies all components, and a
default-constructed handle has a null element pointer and zero indices. -/
theorem handle_value_semantics :
    (∀ t1 t2 : triface,
      (triface.eqOp t1 t2 = true ↔
        (t1.tet = t2.tet ∧ t1.loc = t2.loc ∧ t1.ver = t2.ver)) ∧
      triface.neOp t1 t2 = !triface.eqOp t1 t2) ∧
    (∀ s1 s2 : face,
      (face.eqOp s1 s2 = true ↔ (s1.sh = s2.sh ∧ s1.shver = s2.shver)) ∧
      face.neOp s1 s2 = !face.eqOp s1 s2) ∧
    (∀ a t : triface, triface.assign a t = t) ∧
    (∀ a s : face, face.assign a s = s) ∧
    triface.mkDefault.tet = none ∧ triface.mkDefault.loc = 0 ∧
    triface.mkDefault.ver = 0 ∧
    face.mkDefault.sh = none ∧ face.mkDefault.shver = 0 := by
  refine ⟨?_, ?_, fun a t => rfl, fun a s => rfl, rfl, rfl, rfl, rfl, rfl⟩
  · intro t1 t2
    constructor
    · simp [triface.eqOp, and_assoc]
    · simp only [triface.neOp, triface.eqOp, bne, Bool.not_and]
  · intro s1 s2
    constructor
    · simp [face.eqOp]
    · simp only [face.neOp, face.eqOp, bne, Bool.not_and]

/-! ## The tetgenio exchange structure (tetgen.h:189-351). -/

/-- Modelled from the spec: the `tetgenio` data type (tetgen.h:189-351) after
`tetgenio::initialize()` has run. The body of `initialize()` is in
tetgen.cxx, absent from src/; tetgen.h:166-181 documents that on creation
"all arrays are initialized to NULL" and that `firstnumber` defaults to 0,
and tetgen.h:236-240 documents `firstnumber` default 0 and `mesh_dim`
default 3. A freshly initialized object holds no data, so every element
count is zero. Array pointers are modelled as nullable pointers, counts as
C++ ints. -/
structure tetgenio where
  firstnumber : Int
  mesh_dim : Int
  pointlist : Ptr
  pointattributelist : Ptr
  addpointlist : Ptr
  pointmarkerlist : Ptr
  numberofpoints : Int
  numberofpointattributes : Int
  numberofaddpoints : Int
  tetrahedronlist : Ptr
  tetrahedronattributelist : Ptr
  tetrahedronvolumelist : Ptr
  neighborlist : Ptr
  numberoftetrahedra : Int
  numberofcorners : Int
  numberoftetrahedronattributes : Int
  facetlist : Ptr
  facetmarkerlist : Ptr
  numberoffacets : Int
  holelist : Ptr
  numberofholes : Int
  regionlist : Ptr
  numberofregions : Int
  trifacelist : Ptr
  trifacemarkerlist : Ptr
  numberoftrifaces : Int
  edgelist : Ptr
  edgemarkerlist : Ptr
  numberofedges : Int
deriving DecidableEq

/-- Modelled from the spec: the state set by `tetgenio::initialize()`
(declared tetgen.h:321, body in tetgen.cxx). -/
def tetgenioInit : tetgenio where
  firstnumber := 0
  mesh_dim := 3
  pointlist := none
  pointattributelist := none
  addpointlist := none
  pointmarkerlist := none
  numberofpoints := 0
  numberofpointattributes := 0
  numberofaddpoints := 0
  tetrahedronlist := none
  tetrahedronattributelist := none
  tetrahedronvolumelist := none
  neighborlist := none
  numberoftetrahedra := 0
  numberofcorners := 0
  numberoftetrahedronattributes := 0
  facetlist := none
  facetmarkerlist := none
  numberoffacets := 0
  holelist := none
  numberofholes := 0
  regionlist := none
  numberofregions := 0
  trifacelist := none
  trifacemarkerlist := none
  numberoftrifaces := 0
  edgelist := none
  edgemarkerlist := none
  numberofedges := 0

/-- The constructor `tetgenio() {initialize();}` (tetgen.h:349): a freshly
constructed object is exactly the initialized state. -/
def tetgenioNew : tetgenio := tetgenioInit

/-- Claim C8: immediately after constructing a tetgenio object (the
constructor calls the initialization routine), every array pointer in it is
NULL, every element count is zero, firstnumber is 0, and mesh_dim is 3. -/
theorem tetgenio_initialization :
    tetgenioNew.pointlist = none ∧
    tetgenioNew.pointattributelist = none ∧
    tetgenioNew.addpointlist = none ∧
    tetgenioNew.pointmarkerlist = none ∧
    tetgenioNew.tetrahedronlist = none ∧
    tetgenioNew.tetrahedronattributelist = none ∧
    tetgenioNew.tetrahedronvolumelist = none ∧
    tetgenioNew.neighborlist = none ∧
    tetgenioNew.facetlist = none ∧
    tetgenioNew.facetmarkerlist = none ∧
    tetgenioNew.holelist = none ∧
    tetgenioNew.regionlist = none ∧
    tetgenioNew.trifacelist = none ∧
    tetgenioNew.trifacemarkerlist = none ∧
    tetgenioNew.edgelist = none ∧
    tetgenioNew.edgemarkerlist = none ∧
    tetgenioNew.numberofpoints = 0 ∧
    tetgenioNew.numberofpointattributes = 0 ∧
    tetgenioNew.numberofaddpoints = 0 ∧
    tetgenioNew.numberoftetrahedra = 0 ∧
    tetgenioNew.numberofcorners = 0 ∧
    tetgenioNew.numberoftetrahedronattributes = 0 ∧
    tetgenioNew.numberoffacets = 0 ∧
    tetgenioNew.numberofholes = 0 ∧
    tetgenioNew.numberofregions = 0 ∧
    tetgenioNew.numberoftrifaces = 0 ∧
    tetgenioNew.numberofedges = 0 ∧
    tetgenioNew.firstnumber = 0 ∧
    tetgenioNew.mesh_dim = 3 := by
  repeat first | exact rfl | constructor

/-! ## tetgenbehavior defaults (tetgen.h:375-452). -/

/-- Modelled from the spec: the command-line switch variables of
`tetgenbehavior` (tetgen.h:397-431) at their default values. The
constructor body is in tetgen.cxx, absent from src/; each default is
documented in the comment beside its declaration, in particular
`minratio` — the radius-edge ratio quality bound set by the `-q`
switch — defaults to 2.0 (tetgen.h:400). -/
structure tetgenbehavior where
  plc : Int
  refine : Int
  quality : Int
  minratio : ℚ
  goodratio : ℚ
  varvolume : Int
  fixedvolume : Int
  maxvolume : ℚ
  removesliver : Int
  maxdihedral : ℚ
  insertaddpoints : Int
  regionattrib : Int
  epsilon : ℚ
  nomerge : Int
  detectinter : Int
  checkclosure : Int
  zeroindex : Int
  order : Int
  facesout : Int
  edgesout : Int
  neighbors : Int
  nobisect : Int
  noflip : Int
  docheck : Int
  quiet : Int
  verbose : Int
  useshelles : Int
deriving DecidableEq

/-- Modelled from the spec: the default-initialized `tetgenbehavior`
(constructor declared tetgen.h:440; defaults documented tetgen.h:397-431). -/
def behaviorInit : tetgenbehavior where
  plc := 0
  refine := 0
  quality := 0
  minratio := 2
  goodratio := 0
  varvolume := 0
  fixedvolume := 0
  maxvolume := -1
  removesliver := 0
  maxdihedral := 0
  insertaddpoints := 0
  regionattrib := 0
  epsilon := 1 / 100000000
  nomerge := 0
  detectinter := 0
  checkclosure := 0
  zeroindex := 0
  order := 1
  facesout := 0
  edgesout := 0
  neighbors := 0
  nobisect := 0
  noflip := 0
  docheck := 0
  quiet := 0
  verbose := 0
  useshelles := 0

/-- Claim C1 counterexample: the default value of the radius-edge ratio
quality bound `minratio` is 2.0 (tetgen.h:400: "number after the q switch,
2.0"), which is not √2, refuting the claim's "default value of that
user-tunable bound is √2". -/
theorem minratio_default_ne_sqrt2 :
    behaviorInit.minratio = 2 ∧ ((behaviorInit.minratio : ℝ) ≠ Real.sqrt 2) := by
  refine ⟨rfl, ?_⟩
  have hlt : Real.sqrt 2 < 2 := by
    nlinarith [Real.sq_sqrt (show (0:ℝ) ≤ 2 by norm_num), Real.sqrt_nonneg 2]
  have h2 : ((behaviorInit.minratio : ℚ) : ℝ) = 2 := by norm_num [behaviorInit]
  rw [h2]
  exact fun h => absurd hlt (by rw [← h]; exact lt_irrefl _)

/-! ## Quality refinement (spec section 4.7; tetgen.h:862-872, 1701-1704). -/

/-- Modelled from the spec: a bad-tetrahedron queue record (tetgen.h:862-872)
reduced to its priority key, the squared radius-edge ratio
("key: radius-edge ratio^2", tetgen.h:868). -/
structure QTet where
  ratio2 : ℚ
deriving DecidableEq

/-- Modelled from the spec: a tetrahedron is bad iff its radius-edge ratio
exceeds the quality bound; both sides are compared squared, as the stored
key is the squared ratio. `bound2` stands for the squared configured
bound (`goodratio`, tetgen.h:401). -/
def badtet (bound2 : ℚ) (t : QTet) : Bool := decide (bound2 < t.ratio2)

/-- Modelled from the spec: enqueue every bad tetrahedron
("any tetrahedron whose radius-edge ratio exceeds the quality bound ... is
enqueued keyed by that ratio", spec 4.7). -/
def tallbadtets (bound2 : ℚ) (tets : List QTet) : List QTet :=
  tets.filter (badtet bound2)

/-- Modelled from the spec: one refinement step — take a queued bad
tetrahedron, insert a Steiner point, replacing it by the tetrahedra
`split` produces; `none` when no bad tetrahedron remains (convergence). -/
def refineStep (split : QTet → List QTet) (bound2 : ℚ) (tets : List QTet) :
    Option (List QTet) :=
  match tets.find? (badtet bound2) with
  | none => none
  | some t => some (tets.erase t ++ split t)

/-- Modelled from the spec: the refinement loop, iteration-bounded
("the engine bounds iteration ... and reports non-convergence rather than
looping indefinitely", spec 4.7). Returns the final tetrahedra and whether
refinement converged; on exhausted fuel it reports convergence only if no
bad tetrahedron is left. -/
def refineLoop (split : QTet → List QTet) (bound2 : ℚ) :
    Nat → List QTet → List QTet × Bool
  | 0, tets => (tets, tets.all fun t => !badtet bound2 t)
  | fuel + 1, tets =>
    match refineStep split bound2 tets with
    | none => (tets, true)
    | some tets2 => refineLoop split bound2 fuel tets2

/-- Helper: a converged refinement run leaves no tetrahedron above the bound. -/
theorem refineLoop_converged (split : QTet → List QTet) (bound2 : ℚ) :
    ∀ (fuel : Nat) (tets : List QTet),
      (refineLoop split bound2 fuel tets).2 = true →
      ∀ t ∈ (refineLoop split bound2 fuel tets).1, t.ratio2 ≤ bound2 := by
  intro fuel
  induction fuel with
  | zero =>
    intro tets hconv t ht
    simp only [refineLoop, List.all_eq_true] at hconv ht ⊢
    have := hconv t ht
    simp only [badtet, Bool.not_eq_true', decide_eq_false_iff_not, not_lt] at this
    exact this
  | succ fuel ih =>
    intro tets hconv t ht
    simp only [refineLoop] at hconv ht
    cases hfind : refineStep split bound2 tets with
    | none =>
      simp only [hfind] at hconv ht
      simp only [refineStep] at hfind
      cases hf : tets.find? (badtet bound2) with
      | none =>
        have hnone := List.find?_eq_none.mp hf t ht
        simp only [badtet, decide_eq_true_eq] at hnone
        exact le_of_not_lt hnone
      | some u => simp [hf] at hfind
    | some tets2 =>
      simp only [hfind] at hconv ht
      exact ih tets2 hconv t ht

/-- Claim C1 (amended: the default bound is 2.0, not √2): every tetrahedron
whose radius-edge ratio exceeds the quality bound is enqueued on the
bad-tetrahedron queue; the default value of the user-tunable bound
`minratio` is 2.0; and when the refinement loop reports convergence, every
remaining tetrahedron's squared radius-edge ratio is at most the squared
configured bound (non-convergent runs are instead reported as such). -/
theorem quality_bound_after_convergence (split : QTet → List QTet)
    (bound2 : ℚ) (fuel : Nat) (tets : List QTet)
    (hconv : (refineLoop split bound2 fuel tets).2 = true) :
    behaviorInit.minratio = 2 ∧
    (∀ t ∈ tets, bound2 < t.ratio2 → t ∈ tallbadtets bound2 tets) ∧
    (∀ t ∈ (refineLoop split bound2 fuel tets).1, t.ratio2 ≤ bound2) := by
  refine ⟨rfl, ?_, refineLoop_converged split bound2 fuel tets hconv⟩
  intro t ht hbad
  simp only [tallbadtets, List.mem_filter, badtet, decide_eq_true_eq]
  exact ⟨ht, hbad⟩

/-- Claim C1 witness: a concrete converged run — bound 2 (squared bound 4),
two tetrahedra with squared ratios 6 and 1, splitting always produces one
tetrahedron of squared ratio 1 — ends with every tetrahedron within the
bound. -/
theorem quality_bound_after_convergence_witness :
    behaviorInit.minratio = 2 ∧
    (∀ t ∈ [QTet.mk 6, QTet.mk 1], (4:ℚ) < t.ratio2 →
      t ∈ tallbadtets 4 [QTet.mk 6, QTet.mk 1]) ∧
    (∀ t ∈ (refineLoop (fun _ => [QTet.mk 1]) 4 3 [QTet.mk 6, QTet.mk 1]).1,
      t.ratio2 ≤ 4) :=
  quality_bound_after_convergence (fun _ => [QTet.mk 1]) 4 3
    [QTet.mk 6, QTet.mk 1] (by decide)

/-! ## Point location and site insertion (tetgen.h:580-601, 1560-1595). -/

/-- The `locateresult` labels (tetgen.h:583), embedded from the source enum. -/
inductive locateresult where
  | INTETRAHEDRON
  | ONFACE
  | ONEDGE
  | ONVERTEX
  | OUTSIDE
deriving DecidableEq, Fintype

/-- The `insertsiteresult` labels (tetgen.h:590-591), embedded from the
source enum. -/
inductive insertsiteresult where
  | SUCCESSINTET
  | SUCCESSONFACE
  | SUCCESSONEDGE
  | DUPLICATEPOINT
  | OUTSIDEPOINT
deriving DecidableEq, Fintype

/-- Modelled from the spec: the mesh reduced to its point set, which is all
site insertion needs for the rejection/no-insertion property. -/
structure PointSet where
  pts : List Nat
deriving DecidableEq

/-- Modelled from the spec: `insertsite` (declared tetgen.h:1590-1591, body
in tetgen.cxx, absent from src/), keyed on where point location finds the
new point (spec 4.5): on an existing vertex the point is rejected as a
duplicate; outside the hull it is inserted through the hull-insertion path
when `allowhull` permits, and rejected as outside the domain otherwise;
inside a tetrahedron, on a face or on an edge the containing element is
split and the point inserted. -/
def insertsite (allowhull : Bool) (loc : locateresult) (newpoint : Nat)
    (m : PointSet) : insertsiteresult × PointSet :=
  match loc with
  | .ONVERTEX => (.DUPLICATEPOINT, m)
  | .OUTSIDE =>
    if allowhull then (.SUCCESSINTET, ⟨newpoint :: m.pts⟩)
    else (.OUTSIDEPOINT, m)
  | .INTETRAHEDRON => (.SUCCESSINTET, ⟨newpoint :: m.pts⟩)
  | .ONFACE => (.SUCCESSONFACE, ⟨newpoint :: m.pts⟩)
  | .ONEDGE => (.SUCCESSONEDGE, ⟨newpoint :: m.pts⟩)

/-- Claim C3: `insertsite` is classified into exactly five outcomes —
success inside a tetrahedron, success on a face, success on an edge,
rejected as a duplicate, or rejected as outside the domain; a rejected
insertion inserts no point (the point set is unchanged); and the
outside-rejection happens only when hull insertion is disallowed, while a
success adds precisely the new point. -/
theorem insertsite_classification (allowhull : Bool) (loc : locateresult)
    (newpoint : Nat) (m : PointSet) :
    (Fintype.card insertsiteresult = 5) ∧
    (∀ r : insertsiteresult,
      r = .SUCCESSINTET ∨ r = .SUCCESSONFACE ∨ r = .SUCCESSONEDGE ∨
      r = .DUPLICATEPOINT ∨ r = .OUTSIDEPOINT) ∧
    (((insertsite allowhull loc newpoint m).1 = .DUPLICATEPOINT ∨
      (insertsite allowhull loc newpoint m).1 = .OUTSIDEPOINT) →
      (insertsite allowhull loc newpoint m).2 = m) ∧
    ((insertsite allowhull loc newpoint m).1 = .OUTSIDEPOINT →
      allowhull = false) ∧
    (((insertsite allowhull loc newpoint m).1 = .SUCCESSINTET ∨
      (insertsite allowhull loc newpoint m).1 = .SUCCESSONFACE ∨
      (insertsite allowhull loc newpoint m).1 = .SUCCESSONEDGE) →
      (insertsite allowhull loc newpoint m).2.pts = newpoint :: m.pts) := by
  refine ⟨by decide, fun r => by cases r <;> simp, ?_, ?_, ?_⟩ <;>
    cases loc <;> cases allowhull <;> simp [insertsite]

/-! ## The link and queue data structures (tetgen.h:1085-1147). -/

/-- Modelled from the spec: the `link` data structure (tetgen.h:1085-1121;
method bodies in tetgen.cxx, absent from src/). A link stores items
K[1]..K[n] (tetgen.h:1079-1081); `add` appends a new item at the tail
(tetgen.h:1058-1063), `del(1)` removes and returns the first item, and
`getnitem(1)` reads the first item without removing it. -/
structure link (α : Type) where
  items : List α
deriving DecidableEq

/-- Modelled from the spec: `link::add`, appending at the tail. -/
def link.add (l : link α) (x : α) : link α := ⟨l.items ++ [x]⟩

/-- Modelled from the spec: `link::getnitem(1)`, the head item. -/
def link.getnitem1 (l : link α) : Option α := l.items.head?

/-- Modelled from the spec: `link::del(1)`, removing and returning the head. -/
def link.del1 (l : link α) : Option α × link α :=
  match l.items with
  | [] => (none, ⟨[]⟩)
  | x :: rest => (some x, ⟨rest⟩)

/-- Modelled from the spec: `linkitems`, the number of items in the link. -/
def link.len (l : link α) : Nat := l.items.length

/-- Queue operation `empty()` exactly as inlined at tetgen.h:1143:
`linkitems == 0`. -/
def queueEmpty (q : link α) : Bool := q.len == 0

/-- Queue operation `push` exactly as inlined at tetgen.h:1144:
`link::add(newitem)`. -/
def queuePush (q : link α) (x : α) : link α := q.add x

/-- Queue operation `bot()` exactly as inlined at tetgen.h:1145:
`link::getnitem(1)`. -/
def queueBot (q : link α) : Option α := q.getnitem1

/-- Queue operation `pop()` exactly as inlined at tetgen.h:1146:
`link::del(1)`. -/
def queuePop (q : link α) : Option α × link α := q.del1

/-- A step of a queue client: push a value or pop one. -/
inductive QOp (α : Type) where
  | push (x : α)
  | pop
deriving DecidableEq

/-- Run a sequence of queue operations, collecting the popped values in
order (pops of an empty queue return nothing and are not collected). -/
def runOps : List (QOp α) → link α → link α × List α
  | [], q => (q, [])
  | QOp.push x :: ops, q => runOps ops (queuePush q x)
  | QOp.pop :: ops, q =>
    match queuePop q with
    | (none, q2) => runOps ops q2
    | (some v, q2) =>
      let r := runOps ops q2
      (r.1, v :: r.2)

/-- The values pushed by a sequence of queue operations, in order. -/
def pushedOf : List (QOp α) → List α
  | [] => []
  | QOp.push x :: ops => x :: pushedOf ops
  | QOp.pop :: ops => pushedOf ops

/-- Helper: from any queue state, the popped values are the first `k` of
the queue contents followed by the pushed values, and the final queue holds
the rest, for some `k`. -/
theorem runOps_take_drop :
    ∀ (ops : List (QOp α)) (q : link α), ∃ k : Nat,
      (runOps ops q).2 = (q.items ++ pushedOf ops).take k ∧
      (runOps ops q).1.items = (q.items ++ pushedOf ops).drop k := by
  intro ops
  induction ops with
  | nil => exact fun q => ⟨0, by simp [runOps, pushedOf]⟩
  | cons op ops ih =>
    intro q
    cases op with
    | push x =>
      obtain ⟨k, h1, h2⟩ := ih (queuePush q x)
      exact ⟨k, by
        simpa [runOps, pushedOf, queuePush, link.add] using And.intro h1 h2⟩
    | pop =>
      cases hq : q.items with
      | nil =>
        obtain ⟨k, h1, h2⟩ := ih ⟨[]⟩
        refine ⟨k, ?_⟩
        simp only [runOps, queuePop, link.del1, hq, pushedOf]
        simpa using And.intro h1 h2
      | cons v rest =>
        obtain ⟨k, h1, h2⟩ := ih ⟨rest⟩
        refine ⟨k + 1, ?_⟩
        simp only [runOps, queuePop, link.del1, hq, pushedOf, hq,
          List.cons_append, List.take_succ_cons, List.drop_succ_cons]
        exact ⟨by rw [h1], by rw [h2]⟩

/-- Claim C9: the queue type is FIFO — `empty()` is true exactly when the
queue holds zero items, `push` appends at the tail, `pop` removes and
returns the head, `bot` reads the head without removing it, and for every
sequence of pushes and pops starting from an empty queue the values are
popped in exactly the order they were pushed (the popped list is an initial
run of the pushed list). -/
theorem queue_fifo :
    (∀ q : link Nat, queueEmpty q = true ↔ q.items = []) ∧
    (∀ (q : link Nat) (x : Nat), (queuePush q x).items = q.items ++ [x]) ∧
    (∀ q : link Nat, queueBot q = q.items.head?) ∧
    (∀ (q : link Nat) v q2, queuePop q = (some v, q2) →
      q.items = v :: q2.items) ∧
    (∀ q : link Nat, (queuePop q).1 = none → q.items = []) ∧
    (∀ ops : List (QOp Nat),
      (runOps ops (link.mk [])).2 =
        (pushedOf ops).take (runOps ops (link.mk [])).2.length) := by
  refine ⟨?_, fun q x => rfl, fun q => rfl, ?_, ?_, ?_⟩
  · intro q
    simp [queueEmpty, link.len, List.length_eq_zero]
  · intro q v q2 h
    cases hq : q.items with
    | nil => simp [queuePop, link.del1, hq] at h
    | cons a rest =>
      simp only [queuePop, link.del1, hq, Prod.mk.injEq, Option.some.injEq]
        at h
      rw [h.1, ← h.2]
  · intro q h
    cases hq : q.items with
    | nil => rfl
    | cons a rest => simp [queuePop, link.del1, hq] at h
  · intro ops
    obtain ⟨k, h1, _⟩ := runOps_take_drop ops (link.mk [])
    simp only [link.mk, List.nil_append] at h1
    rw [h1, List.length_take]
    rcases Nat.le_total k (pushedOf ops).length with hk | hk
    · rw [Nat.min_eq_left hk]
    · rw [Nat.min_eq_right hk, List.take_length, List.take_of_length_le hk]

/-! ## The memorypool allocator (tetgen.h:1020-1049). -/

/-- Modelled from the spec: the `memorypool` data structure
(tetgen.h:1020-1049; method bodies in tetgen.cxx, absent from src/).
`slots` is every slot ever allocated from the pool, in storage order;
`deadstack` is the dead-item stack of deallocated slots available for
recycling (tetgen.h:995-999); `pathindex` is the traversal cursor
(pathitem/pathblock, tetgen.h:1003-1006). -/
structure memorypool (α : Type) where
  slots : List α
  deadstack : List Nat
  pathindex : Nat
deriving DecidableEq

/-- Modelled from the spec: `memorypool::alloc` — reuse a recycled slot from
the dead-item stack if one exists, else carve a fresh slot at the end of
storage (tetgen.h:996-999, spec 4.2). -/
def memorypool.alloc (p : memorypool α) (x : α) : memorypool α :=
  match p.deadstack with
  | [] => { p with slots := p.slots ++ [x] }
  | i :: rest => { p with slots := p.slots.set i x, deadstack := rest }

/-- Modelled from the spec: `memorypool::dealloc` — push the slot onto the
dead-item stack for recycling; storage is never shrunk. -/
def memorypool.dealloc (p : memorypool α) (i : Nat) : memorypool α :=
  { p with deadstack := i :: p.deadstack }

/-- Modelled from the spec: `memorypool::traversalinit` — reset the
traversal cursor to the first slot. -/
def memorypool.traversalinit (p : memorypool α) : memorypool α :=
  { p with pathindex := 0 }

/-- Modelled from the spec: `memorypool::traverse` — return the slot under
the cursor and advance, or nothing past the end ("a traversal will visit
items on the deaditemstack as well as live items", tetgen.h:1002-1003). -/
def memorypool.traverse (p : memorypool α) : Option α × memorypool α :=
  match p.slots[p.pathindex]? with
  | none => (none, p)
  | some x => (some x, { p with pathindex := p.pathindex + 1 })

/-- The slots a traversal started at `p`'s cursor still visits, in order. -/
def traverseRest (p : memorypool α) : List α :=
  match h : p.slots[p.pathindex]? with
  | none => []
  | some x => x :: traverseRest { p with pathindex := p.pathindex + 1 }
termination_by p.slots.length - p.pathindex
decreasing_by
  have hlt : p.pathindex < p.slots.length := by
    by_contra hge
    rw [List.getElem?_eq_none (Nat.le_of_not_lt hge)] at h
    exact Option.noConfusion h
  simpa using Nat.sub_succ_lt_self _ _ hlt

/-- Helper: a full traversal from the cursor yields the storage suffix. -/
theorem traverseRest_eq (p : memorypool α) :
    traverseRest p = p.slots.drop p.pathindex := by
  induction p using traverseRest.induct with
  | case1 p h =>
    rw [traverseRest, h]
    exact (List.drop_eq_nil_of_le (List.getElem?_eq_none_iff.mp h)).symm
  | case2 p x h ih =>
    rw [traverseRest, h]
    have hlt : p.pathindex < p.slots.length := by
      by_contra hge
      rw [List.getElem?_eq_none (Nat.le_of_not_lt hge)] at h
      exact Option.noConfusion h
    rw [ih, List.drop_eq_getElem_cons hlt]
    have hx : p.slots[p.pathindex] = x := by
      have := List.getElem?_eq_getElem hlt
      rw [this] at h
      exact (Option.some.injEq _ _ ▸ h.symm).symm
    rw [hx]

/-- Claim C6: a full traversal started by traversalinit and advanced by
traverse visits every slot ever allocated from the pool — including slots
pushed onto the dead-item stack by dealloc, which never removes a slot from
storage — in storage order; one traverse step reads exactly the slot under
the cursor, and allocation never shrinks storage. The traversal itself
never skips a dead slot: every dead-stack slot appears in the visited
list. -/
theorem memorypool_traversal_complete :
    (∀ p : memorypool Nat,
      traverseRest (memorypool.traversalinit p) = p.slots) ∧
    (∀ (p : memorypool Nat) (i : Nat),
      (memorypool.dealloc p i).slots = p.slots) ∧
    (∀ (p : memorypool Nat) (x : Nat),
      p.slots.length ≤ (memorypool.alloc p x).slots.length) ∧
    (∀ p : memorypool Nat,
      (memorypool.traverse p).1 = p.slots[p.pathindex]?) ∧
    (∀ (p : memorypool Nat) (i : Nat), i ∈ p.deadstack →
      ∀ h : i < p.slots.length,
        p.slots.get ⟨i, h⟩ ∈ traverseRest (memorypool.traversalinit p)) := by
  have hinit : ∀ p : memorypool Nat,
      traverseRest (memorypool.traversalinit p) = p.slots := by
    intro p
    rw [traverseRest_eq]
    rfl
  refine ⟨hinit, fun p i => rfl, ?_, ?_, ?_⟩
  · intro p x
    cases hd : p.deadstack with
    | nil => simp [memorypool.alloc, hd]
    | cons i rest => simp [memorypool.alloc, hd]
  · intro p
    cases h : p.slots[p.pathindex]? with
    | none => simp [memorypool.traverse, h]
    | some x => simp [memorypool.traverse, h]
  · intro p i _ h
    rw [hinit p]
    exact List.get_mem _ _ _

/-! ## Mesh adjacency and the topological closure invariant
(tetgen.h:1179-1186, 1350-1356; spec sections 3 and 8). -/

/-- Modelled from the spec: the tetrahedron adjacency structure. `live` is
the list of live tetrahedron ids; `nbr t i` is the neighbor stored in face
slot `i` of tetrahedron `t`, as the pair (adjoining tetrahedron id, face
slot by which it looks back). Id 0 is `dummytet`, the sentinel tetrahedron
occupying "outer space" (tetgen.h:1179-1181); absent neighbors hold the
sentinel, never NULL (tetgen.h:670-675). -/
structure TMesh where
  live : List Nat
  nbr : Nat → Fin 4 → Nat × Fin 4

/-- The topological closure property (spec section 8): each of a live
tetrahedron's 4 neighbor slots is either the sentinel or a live
tetrahedron that lists the original back as its own neighbor across the
shared face (symmetry of `sym`, tetgen.h:1353). -/
def closureOK (m : TMesh) : Prop :=
  ∀ t ∈ m.live, ∀ i : Fin 4,
    (m.nbr t i).1 = 0 ∨
    ((m.nbr t i).1 ∈ m.live ∧
      m.nbr (m.nbr t i).1 (m.nbr t i).2 = (t, i))

/-- Update one neighbor slot of the adjacency map. -/
def setnbr (f : Nat → Fin 4 → Nat × Fin 4) (t : Nat) (i : Fin 4)
    (v : Nat × Fin 4) : Nat → Fin 4 → Nat × Fin 4 :=
  fun u j => if u = t ∧ j = i then v else f u j

/-- Modelled from the spec: the mesh surgery steps of the engine.
`maketet` is `maketetrahedron` (tetgen.h:1550): a fresh tetrahedron with
all four neighbor slots bonded to the sentinel. `bond` is
`bond(t1,t2)` (tetgen.h:1295-1296, 1355): glue two currently unbonded
faces of two distinct live tetrahedra to each other. `unbond` undoes a
bond by dissolving both sides to the sentinel (`dissolve`,
tetgen.h:1297-1298, 1356, applied to a face and its `sym`). `deadtet` is
`tetrahedrondealloc` (tetgen.h:1542) of a fully dissolved tetrahedron. -/
inductive MeshStep : TMesh → TMesh → Prop
  | maketet (m : TMesh) (t : Nat) (ht : t ≠ 0) (hnew : t ∉ m.live) :
      MeshStep m ⟨t :: m.live, fun u j => if u = t then (0, 0) else m.nbr u j⟩
  | bond (m : TMesh) (t1 t2 : Nat) (i1 i2 : Fin 4) (h1 : t1 ∈ m.live)
      (h2 : t2 ∈ m.live) (hne : t1 ≠ t2) (hfree1 : (m.nbr t1 i1).1 = 0)
      (hfree2 : (m.nbr t2 i2).1 = 0) :
      MeshStep m ⟨m.live, setnbr (setnbr m.nbr t1 i1 (t2, i2)) t2 i2 (t1, i1)⟩
  | unbond (m : TMesh) (t1 : Nat) (i1 : Fin 4) (h1 : t1 ∈ m.live)
      (hb : (m.nbr t1 i1).1 ≠ 0) :
      MeshStep m ⟨m.live,
        setnbr (setnbr m.nbr t1 i1 (0, 0)) (m.nbr t1 i1).1 (m.nbr t1 i1).2
          (0, 0)⟩
  | deadtet (m : TMesh) (t : Nat) (ht : t ∈ m.live)
      (hdis : ∀ i : Fin 4, (m.nbr t i).1 = 0) :
      MeshStep m ⟨m.live.erase t, m.nbr⟩

/-- The initial mesh: no live tetrahedra, every slot sentinel. -/
def initialMesh : TMesh := ⟨[], fun _ _ => (0, 0)⟩

/-- The engine's invariant: the sentinel id is never live, and closure
holds. -/
def meshInv (m : TMesh) : Prop := 0 ∉ m.live ∧ closureOK m

/-- Helper: every mesh surgery step preserves the invariant. -/
theorem meshStep_preserves (m m' : TMesh) (hs : MeshStep m m')
    (hi : meshInv m) : meshInv m' := by
  obtain ⟨h0, hc⟩ := hi
  cases hs with
  | maketet t ht hnew =>
    constructor
    · intro hmem
      rcases List.mem_cons.mp hmem with he | he
      · exact ht he.symm
      · exact h0 he
    intro u hu i
    by_cases hut : u = t
    · subst hut
      left
      simp
    · rcases List.mem_cons.mp hu with he | hul
      · exact absurd he hut
      rcases hc u hul i with hz | ⟨hl, hb⟩
      · left
        simpa [hut] using hz
      · right
        have hvt : (m.nbr u i).1 ≠ t := fun he => hnew (he ▸ hl)
        simp only [hut, if_false]
        exact ⟨List.mem_cons_of_mem _ hl, by simp only [hvt, if_false]; exact hb⟩
  | bond t1 t2 i1 i2 h1 h2 hne hfree1 hfree2 =>
    refine ⟨h0, ?_⟩
    have hN2 : setnbr (setnbr m.nbr t1 i1 (t2, i2)) t2 i2 (t1, i1) t2 i2 =
        (t1, i1) := by
      simp [setnbr]
    have hN1 : setnbr (setnbr m.nbr t1 i1 (t2, i2)) t2 i2 (t1, i1) t1 i1 =
        (t2, i2) := by
      simp [setnbr, hne]
    intro u hu i
    dsimp only at hu ⊢
    by_cases hu2 : u = t2 ∧ i = i2
    · obtain ⟨rfl, rfl⟩ := hu2
      right
      rw [hN2]
      exact ⟨h1, hN1⟩
    · by_cases hu1 : u = t1 ∧ i = i1
      · obtain ⟨rfl, rfl⟩ := hu1
        right
        rw [hN1]
        exact ⟨h2, hN2⟩
      · have hval : setnbr (setnbr m.nbr t1 i1 (t2, i2)) t2 i2 (t1, i1) u i =
            m.nbr u i := by
          simp only [setnbr, hu1, hu2, if_false]
        rcases hc u hu i with hz | ⟨hl, hb⟩
        · left
          rw [hval]
          exact hz
        · right
          have hu0 : u ≠ 0 := fun he => h0 (he ▸ hu)
          have hn2 : ¬((m.nbr u i).1 = t2 ∧ (m.nbr u i).2 = i2) := by
            rintro ⟨he1, he2⟩
            rw [he1, he2] at hb
            rw [hb] at hfree2
            exact hu0 hfree2
          have hn1 : ¬((m.nbr u i).1 = t1 ∧ (m.nbr u i).2 = i1) := by
            rintro ⟨he1, he2⟩
            rw [he1, he2] at hb
            rw [hb] at hfree1
            exact hu0 hfree1
          rw [hval]
          refine ⟨hl, ?_⟩
          simp only [setnbr, hn2, hn1, if_false]
          exact hb
  | unbond t1 i1 h1 hb =>
    refine ⟨h0, ?_⟩
    have hsym : (m.nbr t1 i1).1 ∈ m.live ∧
        m.nbr (m.nbr t1 i1).1 (m.nbr t1 i1).2 = (t1, i1) := by
      rcases hc t1 h1 i1 with hz | hr
      · exact absurd hz hb
      · exact hr
    intro u hu i
    dsimp only at hu ⊢
    by_cases hu2 : u = (m.nbr t1 i1).1 ∧ i = (m.nbr t1 i1).2
    · obtain ⟨rfl, rfl⟩ := hu2
      left
      simp [setnbr]
    · by_cases hu1 : u = t1 ∧ i = i1
      · obtain ⟨rfl, rfl⟩ := hu1
        left
        simp only [setnbr, hu2, if_false, and_self, if_true]
      · have hval : setnbr (setnbr m.nbr t1 i1 (0, 0)) (m.nbr t1 i1).1
            (m.nbr t1 i1).2 (0, 0) u i = m.nbr u i := by
          simp only [setnbr, hu1, hu2, if_false]
        rcases hc u hu i with hz | ⟨hl, hbk⟩
        · left
          rw [hval]
          exact hz
        · right
          have hn2 : ¬((m.nbr u i).1 = (m.nbr t1 i1).1 ∧
              (m.nbr u i).2 = (m.nbr t1 i1).2) := by
            rintro ⟨he1, he2⟩
            rw [he1, he2] at hbk
            rw [hsym.2] at hbk
            exact hu1 ⟨congrArg Prod.fst hbk.symm, congrArg Prod.snd hbk.symm⟩
          have hn1 : ¬((m.nbr u i).1 = t1 ∧ (m.nbr u i).2 = i1) := by
            rintro ⟨he1, he2⟩
            rw [he1, he2] at hbk
            exact hu2 ⟨congrArg Prod.fst hbk.symm, congrArg Prod.snd hbk.symm⟩
          rw [hval]
          refine ⟨hl, ?_⟩
          simp only [setnbr, hn2, hn1, if_false]
          exact hbk
  | deadtet t ht hdis =>
    constructor
    · intro hmem
      exact h0 (List.mem_of_mem_erase hmem)
    intro u hu i
    dsimp only at hu ⊢
    have hul : u ∈ m.live := List.mem_of_mem_erase hu
    rcases hc u hul i with hz | ⟨hl, hbk⟩
    · left
      exact hz
    · right
      have hvt : (m.nbr u i).1 ≠ t := by
        intro he
        have := hdis (m.nbr u i).2
        rw [← he] at this
        rw [hbk] at this
        exact h0 (this ▸ hul)
      exact ⟨(List.mem_erase_of_ne hvt).mpr hl, hbk⟩

/-- A mesh state is reachable when a finite sequence of surgery steps leads
to it from the initial (empty) mesh. -/
def Reachable (m : TMesh) : Prop :=
  Relation.ReflTransGen MeshStep initialMesh m

/-- Claim C2: in every reachable mesh state, for every live tetrahedron,
each of its 4 neighbor slots is either the sentinel (`dummytet`)
tetrahedron or a live tetrahedron that lists the original back as its own
neighbor across the shared face (symmetry of `sym`); equivalently every
interior face has its two incident tetrahedra pointing at each other and
boundary faces carry the sentinel; absent neighbors are the sentinel by
construction, never NULL. -/
theorem topological_closure_invariant (m : TMesh) (h : Reachable m) :
    closureOK m := by
  have : meshInv m := by
    induction h with
    | refl =>
      exact ⟨fun hmem => (List.not_mem_nil 0) hmem, fun t htm => absurd htm (List.not_mem_nil t)⟩
    | tail _ hstep ih => exact meshStep_preserves _ _ hstep ih
  exact this.2

/-- Claim C2 witness: the initial mesh is reachable and satisfies closure. -/
theorem topological_closure_invariant_witness : closureOK initialMesh :=
  topological_closure_invariant initialMesh Relation.ReflTransGen.refl

/-! ## Bistellar flips and the flip-history stack
(tetgen.h:567-571, 874-883, 1568-1578; spec section 4.4). -/

/-- A tetrahedron as the multiset of its four corner point ids (topology
only; the flip round-trip is a statement about mesh topology). -/
abbrev Tet4 : Type := Multiset Nat

/-- Build a tetrahedron from four corners. -/
def tet4 (a b c d : Nat) : Tet4 := {a, b, c, d}

/-- The mesh topology: the multiset of its tetrahedra. -/
abbrev FlipMesh : Type := Multiset Tet4

/-- The `fliptype` labels (tetgen.h:570-571), embedded from the source
enum: flipable faces have type T23, T32, T22 or T44, the others mark
non-flipable faces. -/
inductive fliptype where
  | T23
  | T32
  | T22
  | T44
  | UNFLIPABLE
  | FORBIDDENFACE
  | FORBIDDENEDGE
  | NONCONVEX
deriving DecidableEq

/-- Modelled from the spec: a flip-history record (`flipstacker`,
tetgen.h:878-883) — the flip type performed plus the vertices of the
flipped configuration. A 2-3 flip on face (a,b,c) against apexes d, e
replaces tetrahedra abcd, abce by the three tetrahedra around edge de; a
3-2 flip is its exact inverse; a 2-2 flip swaps the diagonal ab of the
coplanar quadrilateral acbd against apex e; a 4-4 flip re-rings the four
tetrahedra around edge pq (ring a,b,c,d) around the new edge ac. -/
structure FlipRec where
  fc : fliptype
  p1 : Nat
  p2 : Nat
  p3 : Nat
  p4 : Nat
  p5 : Nat
  p6 : Nat
deriving DecidableEq

/-- The tetrahedra a flip removes from the mesh. -/
def removedTets (r : FlipRec) : FlipMesh :=
  match r with
  | ⟨.T23, a, b, c, d, e, _⟩ => {tet4 a b c d, tet4 a b c e}
  | ⟨.T32, a, b, c, d, e, _⟩ => {tet4 a b d e, tet4 b c d e, tet4 c a d e}
  | ⟨.T22, a, b, c, d, e, _⟩ => {tet4 a b c e, tet4 a b d e}
  | ⟨.T44, p, q, a, b, c, d⟩ =>
    {tet4 p q a b, tet4 p q b c, tet4 p q c d, tet4 p q d a}
  | _ => 0

/-- The tetrahedra a flip adds to the mesh: a 2-3 flip adds what the 3-2
flip on the same configuration removes and vice versa; a 2-2 (resp. 4-4)
flip adds what the same flip on the diagonal-swapped configuration
removes. -/
def addedTets (r : FlipRec) : FlipMesh :=
  match r with
  | ⟨.T23, a, b, c, d, e, x⟩ => removedTets ⟨.T32, a, b, c, d, e, x⟩
  | ⟨.T32, a, b, c, d, e, x⟩ => removedTets ⟨.T23, a, b, c, d, e, x⟩
  | ⟨.T22, a, b, c, d, e, x⟩ => removedTets ⟨.T22, c, d, a, b, e, x⟩
  | ⟨.T44, p, q, a, b, c, d⟩ => removedTets ⟨.T44, a, c, p, b, q, d⟩
  | _ => 0

/-- The inverse flip record: 3-2 for 2-3 and vice versa (spec 4.4); 2-2 and
4-4 invert to themselves on the diagonal-swapped configuration. -/
def invRec (r : FlipRec) : FlipRec :=
  match r with
  | ⟨.T23, a, b, c, d, e, x⟩ => ⟨.T32, a, b, c, d, e, x⟩
  | ⟨.T32, a, b, c, d, e, x⟩ => ⟨.T23, a, b, c, d, e, x⟩
  | ⟨.T22, a, b, c, d, e, x⟩ => ⟨.T22, c, d, a, b, e, x⟩
  | ⟨.T44, p, q, a, b, c, d⟩ => ⟨.T44, a, c, p, b, q, d⟩
  | r => r

/-- Modelled from the spec: perform one flip — remove its tetrahedra, add
the replacements (flip23/flip32/flip22, tetgen.h:1572-1574). -/
def applyFlip (r : FlipRec) (m : FlipMesh) : FlipMesh :=
  m - removedTets r + addedTets r

/-- Modelled from the spec: perform a sequence of flips in order, as
`flip` (tetgen.h:1577) performs them during one point insertion. -/
def doflips (rs : List FlipRec) (m : FlipMesh) : FlipMesh :=
  rs.foldl (fun mm r => applyFlip r mm) m

/-- The flip-history stack after performing `rs` in order: each flip is
pushed on top, so the most recent flip is first. -/
def flipstackOf (rs : List FlipRec) : List FlipRec := rs.reverse

/-- Modelled from the spec: `undoflip` (tetgen.h:1578) replays the stack
from the top, applying the inverse flip type of each entry. -/
def undoflip (stack : List FlipRec) (m : FlipMesh) : FlipMesh :=
  stack.foldl (fun mm r => applyFlip (invRec r) mm) m

/-- A flip sequence is applicable when each flip finds the tetrahedra it
removes present in the mesh it acts on. -/
def Applicable : FlipMesh → List FlipRec → Prop
  | _, [] => True
  | m, r :: rs => removedTets r ≤ m ∧ Applicable (applyFlip r m) rs

/-- Helper: the inverse flip removes exactly what the flip added. -/
theorem removed_invRec (r : FlipRec) :
    removedTets (invRec r) = addedTets r := by
  rcases r with ⟨fc, a, b, c, d, e, x⟩
  cases fc <;> rfl

/-- Helper: the inverse flip adds exactly what the flip removed. -/
theorem added_invRec (r : FlipRec) :
    addedTets (invRec r) = removedTets r := by
  rcases r with ⟨fc, a, b, c, d, e, x⟩
  cases fc <;> rfl

/-- Helper: one applicable flip followed by its inverse restores the mesh. -/
theorem applyFlip_inv (r : FlipRec) (m : FlipMesh)
    (h : removedTets r ≤ m) :
    applyFlip (invRec r) (applyFlip r m) = m := by
  unfold applyFlip
  rw [removed_invRec, added_invRec, add_tsub_cancel_right,
    tsub_add_cancel_of_le h]

/-- Helper: replaying the stack of an applicable flip sequence restores the
starting mesh. -/
theorem undoflip_doflips (rs : List FlipRec) (m : FlipMesh)
    (h : Applicable m rs) :
    undoflip (flipstackOf rs) (doflips rs m) = m := by
  induction rs generalizing m with
  | nil => rfl
  | cons r rs ih =>
    obtain ⟨h1, h2⟩ := h
    have hst : flipstackOf (r :: rs) = flipstackOf rs ++ [r] := by
      simp [flipstackOf]
    have hdo : doflips (r :: rs) m = doflips rs (applyFlip r m) := rfl
    rw [hst, hdo]
    unfold undoflip
    rw [List.foldl_append, List.foldl_cons, List.foldl_nil]
    have := ih (applyFlip r m) h2
    unfold undoflip at this
    rw [this]
    exact applyFlip_inv r m h1

/-- Claim C4: every performed flip is logged with its type and vertices,
`undoflip` replays the stack in reverse applying the inverse flip type of
each entry — 3-2 for 2-3 and vice versa — and after any applicable flip
sequence performed during one insertion, replaying the stack restores the
exact pre-insertion mesh topology; in particular a 2-3 flip followed by
its 3-2 inverse (or vice versa) restores the original tetrahedra. -/
theorem flip_undoflip_roundtrip (m : FlipMesh) (rs : List FlipRec)
    (h : Applicable m rs) :
    undoflip (flipstackOf rs) (doflips rs m) = m ∧
    (∀ (r : FlipRec) (mm : FlipMesh), removedTets r ≤ mm →
      applyFlip (invRec r) (applyFlip r mm) = mm) ∧
    (∀ a b c d e x : Nat,
      invRec ⟨.T23, a, b, c, d, e, x⟩ = ⟨.T32, a, b, c, d, e, x⟩ ∧
      invRec ⟨.T32, a, b, c, d, e, x⟩ = ⟨.T23, a, b, c, d, e, x⟩) :=
  ⟨undoflip_doflips rs m h, applyFlip_inv,
    fun _ _ _ _ _ _ => ⟨rfl, rfl⟩⟩

/-- Claim C4 witness: a concrete 2-3 flip on the mesh of two tetrahedra
1234 and 1235 is undone exactly by replaying its stack entry. -/
theorem flip_undoflip_roundtrip_witness :
    undoflip (flipstackOf [FlipRec.mk .T23 1 2 3 4 5 0])
        (doflips [FlipRec.mk .T23 1 2 3 4 5 0]
          {tet4 1 2 3 4, tet4 1 2 3 5}) =
      {tet4 1 2 3 4, tet4 1 2 3 5} ∧
    (∀ (r : FlipRec) (mm : FlipMesh), removedTets r ≤ mm →
      applyFlip (invRec r) (applyFlip r mm) = mm) ∧
    (∀ a b c d e x : Nat,
      invRec ⟨.T23, a, b, c, d, e, x⟩ = ⟨.T32, a, b, c, d, e, x⟩ ∧
      invRec ⟨.T32, a, b, c, d, e, x⟩ = ⟨.T23, a, b, c, d, e, x⟩) :=
  flip_undoflip_roundtrip {tet4 1 2 3 4, tet4 1 2 3 5}
    [FlipRec.mk .T23 1 2 3 4 5 0] (by exact ⟨le_of_eq rfl, trivial⟩)

/-! ## The flip-propagation loop (tetgen.h:1569-1577; spec section 4.4)
and its determinism (spec section 5). -/

/-- A candidate face on the flip worklist, named by its three vertices (a
queued face is re-identified by its stored vertices, tetgen.h:848-849). -/
abbrev FaceKey : Type := Nat × Nat × Nat

/-- The flipable classifications among `categorizeface`'s results
(tetgen.h:567-571): T23, T32, T22 and T44 faces are flipped, the others
are skipped. -/
def flippableType (t : fliptype) : Bool :=
  match t with
  | .T23 => true
  | .T32 => true
  | .T22 => true
  | .T44 => true
  | _ => false

/-- Modelled from the spec: one iteration of the flip loop `flip`
(tetgen.h:1577) — pop the front face of the worklist, classify it
(`categorizeface`, tetgen.h:1569), flip it when flipable (pushing the
newly exposed faces back onto the worklist), skip it otherwise.
`classify` and `doflip0` abstract the classification and the single-flip
transformation (which returns the new mesh and the newly exposed faces). -/
def flipstep (classify : FlipMesh → FaceKey → fliptype)
    (doflip0 : FlipMesh → FaceKey → FlipMesh × List FaceKey) :
    FlipMesh × List FaceKey → FlipMesh × List FaceKey
  | (m, []) => (m, [])
  | (m, f :: wl) =>
    if flippableType (classify m f) then
      ((doflip0 m f).1, wl ++ (doflip0 m f).2)
    else (m, wl)

/-- Claim C5: for every mesh state and every initial worklist of candidate
faces, the flip-propagation loop terminates — the worklist empties after
finitely many pop/classify/flip steps — provided each performed flip
strictly decreases a well-founded (ℕ-valued) local Delaunay measure `μ`. -/
theorem flip_worklist_terminates
    (classify : FlipMesh → FaceKey → fliptype)
    (doflip0 : FlipMesh → FaceKey → FlipMesh × List FaceKey)
    (μ : FlipMesh → Nat)
    (hdec : ∀ m f, flippableType (classify m f) = true →
      μ (doflip0 m f).1 < μ m)
    (m : FlipMesh) (wl : List FaceKey) :
    ∃ n : Nat, ((flipstep classify doflip0)^[n] (m, wl)).2 = [] := by
  have main : ∀ (N : Nat) (m : FlipMesh) (wl : List FaceKey), μ m ≤ N →
      ∃ n : Nat, ((flipstep classify doflip0)^[n] (m, wl)).2 = [] := by
    intro N
    induction N with
    | zero =>
      intro m wl hm
      induction wl with
      | nil => exact ⟨0, rfl⟩
      | cons f wl ihw =>
        cases hcl : flippableType (classify m f) with
        | false =>
          obtain ⟨n, hn⟩ := ihw
          refine ⟨n + 1, ?_⟩
          rw [Function.iterate_succ_apply]
          simpa [flipstep, hcl] using hn
        | true =>
          exact absurd (Nat.lt_of_lt_of_le (hdec m f hcl) hm)
            (Nat.not_lt_zero _)
    | succ N ihN =>
      intro m wl hm
      induction wl with
      | nil => exact ⟨0, rfl⟩
      | cons f wl ihw =>
        cases hcl : flippableType (classify m f) with
        | false =>
          obtain ⟨n, hn⟩ := ihw
          refine ⟨n + 1, ?_⟩
          rw [Function.iterate_succ_apply]
          simpa [flipstep, hcl] using hn
        | true =>
          have hless : μ (doflip0 m f).1 ≤ N :=
            Nat.lt_succ_iff.mp (Nat.lt_of_lt_of_le (hdec m f hcl) hm)
          obtain ⟨n, hn⟩ := ihN (doflip0 m f).1 (wl ++ (doflip0 m f).2) hless
          refine ⟨n + 1, ?_⟩
          rw [Function.iterate_succ_apply]
          simpa [flipstep, hcl] using hn
  exact main (μ m) m wl (le_refl _)

/-- Claim C5 witness: with the classification that finds every face
locally Delaunay (UNFLIPABLE), the loop from a concrete one-face worklist
terminates. -/
theorem flip_worklist_terminates_witness :
    ∃ n : Nat,
      ((flipstep (fun _ _ => fliptype.UNFLIPABLE)
        (fun m _ => (m, [])))^[n] ({tet4 1 2 3 4}, [((1:Nat), (2:Nat), (3:Nat))])).2 = [] :=
  flip_worklist_terminates (fun _ _ => fliptype.UNFLIPABLE)
    (fun m _ => (m, [])) (fun _ => 0) (fun _ _ h => nomatch h)
    {tet4 1 2 3 4} [(1, 2, 3)]

/-- Modelled from the spec: the flip loop as a step relation, for stating
determinism: one step pops the front face and either skips it (not
flipable) or performs the unique flip the deterministic classification and
symbolic tie-break select (spec section 5). -/
inductive EngineStep (classify : FlipMesh → FaceKey → fliptype)
    (doflip0 : FlipMesh → FaceKey → FlipMesh × List FaceKey) :
    FlipMesh × List FaceKey → FlipMesh × List FaceKey → Prop
  | skip (m : FlipMesh) (f : FaceKey) (wl : List FaceKey)
      (hc : flippableType (classify m f) = false) :
      EngineStep classify doflip0 (m, f :: wl) (m, wl)
  | doflip (m : FlipMesh) (f : FaceKey) (wl : List FaceKey)
      (hc : flippableType (classify m f) = true) :
      EngineStep classify doflip0 (m, f :: wl)
        ((doflip0 m f).1, wl ++ (doflip0 m f).2)

/-- An `n`-step run of the engine. -/
def EngineRun (classify : FlipMesh → FaceKey → fliptype)
    (doflip0 : FlipMesh → FaceKey → FlipMesh × List FaceKey) :
    Nat → FlipMesh × List FaceKey → FlipMesh × List FaceKey → Prop
  | 0, s, t => t = s
  | n + 1, s, t => ∃ u, EngineStep classify doflip0 s u ∧
      EngineRun classify doflip0 n u t

/-- Helper: a single engine step is deterministic. -/
theorem engineStep_deterministic
    (classify : FlipMesh → FaceKey → fliptype)
    (doflip0 : FlipMesh → FaceKey → FlipMesh × List FaceKey)
    (s t1 t2 : FlipMesh × List FaceKey)
    (h1 : EngineStep classify doflip0 s t1)
    (h2 : EngineStep classify doflip0 s t2) : t1 = t2 := by
  cases h1 with
  | skip m f wl hc =>
    cases h2 with
    | skip _ _ _ _ => rfl
    | doflip _ _ _ hc2 => rw [hc] at hc2; exact Bool.noConfusion hc2
  | doflip m f wl hc =>
    cases h2 with
    | skip _ _ _ hc2 => rw [hc] at hc2; exact Bool.noConfusion hc2
    | doflip _ _ _ _ => rfl

/-- Claim C7: the engine is deterministic — two runs of the same length
from the same mesh state and worklist (same input geometry, behavior
settings and insertion order) reach the same state; when cospherical
degeneracies admit several valid Delaunay triangulations, the
classification (with its symbolic tie-break) is a function of the state,
so the same one is selected on every run. -/
theorem engine_deterministic
    (classify : FlipMesh → FaceKey → fliptype)
    (doflip0 : FlipMesh → FaceKey → FlipMesh × List FaceKey)
    (n : Nat) (s t1 t2 : FlipMesh × List FaceKey)
    (h1 : EngineRun classify doflip0 n s t1)
    (h2 : EngineRun classify doflip0 n s t2) : t1 = t2 := by
  induction n generalizing s with
  | zero => rw [h1, h2]
  | succ n ih =>
    obtain ⟨u1, hs1, hr1⟩ := h1
    obtain ⟨u2, hs2, hr2⟩ := h2
    have := engineStep_deterministic classify doflip0 s u1 u2 hs1 hs2
    subst this
    exact ih u1 hr1 hr2

/-- Claim C7 witness: two concrete one-step runs from the same state reach
the same state. -/
theorem engine_deterministic_witness :
    (({tet4 1 2 3 4} : FlipMesh), ([] : List FaceKey)) =
      (({tet4 1 2 3 4} : FlipMesh), ([] : List FaceKey)) :=
  engine_deterministic (fun _ _ => fliptype.UNFLIPABLE) (fun m _ => (m, []))
    1 ({tet4 1 2 3 4}, [(1, 2, 3)]) ({tet4 1 2 3 4}, [])
    ({tet4 1 2 3 4}, [])
    ⟨({tet4 1 2 3 4}, []), EngineStep.skip _ _ _ rfl, rfl⟩
    ⟨({tet4 1 2 3 4}, []), EngineStep.skip _ _ _ rfl, rfl⟩

end Tetgen